import Mathlib

/-!
Verification of the HMM output-model kernels exposed by
`sktime/markovprocess/hmm/_bindings/src/hmm_module.cpp`.

The repository source under consideration consists of the pybind11 binding
file; the kernel bodies (`hmm::output_models::discrete::updatePOut`,
`hmm::output_models::gaussian::pO` / `pObs`, declared in `OutputModels.h`)
are not part of the visible sources, so these are modelled from the spec.
The binding surface itself (which submodules and overloads exist) is
embedded directly from `hmm_module.cpp`.
-/

namespace HmmBindings

/-! ## Discrete output model: weighted-count accumulator -/

/-- Modelled from the spec: the body of
`hmm::output_models::discrete::updatePOut` is declared in `OutputModels.h`,
which is not among the visible sources.  One time step of the scatter-add:
for symbol `o` and weight row `wRow` (length `K`), add `wRow[k]` to
`pout[k][o]` for every state `k`. -/
def scatterStep (o : ℕ) (wRow : List ℚ) (pout : List (List ℚ)) :
    List (List ℚ) :=
  List.zipWith (fun row w => row.set o (row.getD o 0 + w)) pout wRow

/-- Modelled from the spec: `update_p_out(observations, weights, pout)`
performs, time-major, `pout[k][observations[t]] += weights[t][k]` for every
`t` and `k`, mutating the `(K, N)` table in place.  Here the updated table
is returned. -/
def updatePOut : List ℕ → List (List ℚ) → List (List ℚ) → List (List ℚ)
  | o :: obs, w :: weights, pout => updatePOut obs weights (scatterStep o w pout)
  | _, _, pout => pout

/-- The total weight added to cell `(k, n)` by the scatter-add:
`Σ { weights[t][k] | t with obs[t] = n }`, in time order. -/
def scatterSum (k n : ℕ) : List ℕ → List (List ℚ) → ℚ
  | o :: obs, w :: weights =>
      (if o = n then w.getD k 0 else 0) + scatterSum k n obs weights
  | _, _ => 0

/-! ## Gaussian output model -/

/-- Modelled from the spec: the univariate Gaussian probability density
`N(o; mu, sigma)` used by `hmm::output_models::gaussian::pO`, whose body in
`OutputModels.h` is not among the visible sources. -/
noncomputable def gaussianDensity (o mu sigma : ℝ) : ℝ :=
  Real.exp (-((o - mu) ^ 2) / (2 * sigma ^ 2)) / (sigma * Real.sqrt (2 * Real.pi))

/-- Modelled from the spec: `p_o(o, mus, sigmas)` loops over the hidden
states and computes `density[k] = N(o; mus[k], sigmas[k])`. -/
noncomputable def pO (o : ℝ) : List ℝ → List ℝ → List ℝ
  | mu :: mus, sigma :: sigmas => gaussianDensity o mu sigma :: pO o mus sigmas
  | _, _ => []

/-- Modelled from the spec: `p_obs(obs, mus, sigmas)` is the batched form,
applying `p_o` independently per time step to build the `(T, K)` density
matrix. -/
noncomputable def pObs (obs : List ℝ) (mus sigmas : List ℝ) : List (List ℝ) :=
  obs.map (fun o => pO o mus sigmas)

/-! ## Error taxonomy and precondition checks -/

/-- The spec's fatal error taxonomy (§7): shape mismatch, symbol index out
of range, and invalid (non-positive) standard deviation. -/
inductive KernelError where
  | shapeMismatch
  | indexOutOfRange
  | invalidSigma
  deriving DecidableEq, Repr

/-- Shape agreement for `update_p_out`: `weights` is `(T, K)` and `pout` is
`(K, N)`, with `T` from `obs` and `K`, `N` from `pout`. -/
abbrev okShape (obs : List ℤ) (weights pout : List (List ℚ)) : Prop :=
  weights.length = obs.length ∧ (∀ w ∈ weights, w.length = pout.length) ∧
    ∀ row ∈ pout, row.length = (pout.headD []).length

/-- Every symbol is a valid column index: `0 ≤ o < N` with `N` the alphabet
size taken from the table's second dimension. -/
abbrev okSymbols (obs : List ℤ) (pout : List (List ℚ)) : Prop :=
  ∀ o ∈ obs, 0 ≤ o ∧ o < ((pout.headD []).length : ℤ)

/-- Modelled from the spec: the kernel boundary of `update_p_out` validates
shapes (`weights` is `(T, K)`, `pout` is `(K, N)` with `K`/`N` taken from
`pout`) and symbol range (`0 ≤ o < N`) before running the scatter-add, and
fails fast with the documented error kind otherwise.  Observations carry a
signed integer type at the boundary, so range checking includes
negativity. -/
def updatePOutChecked (obs : List ℤ) (weights : List (List ℚ))
    (pout : List (List ℚ)) : Except KernelError (List (List ℚ)) :=
  if ¬ okShape obs weights pout then
    .error .shapeMismatch
  else if ¬ okSymbols obs pout then
    .error .indexOutOfRange
  else
    .ok (updatePOut (obs.map Int.toNat) weights pout)

open Classical in
/-- Modelled from the spec: the kernel boundary of `p_o` validates that
`mus` and `sigmas` agree in shape and that every standard deviation is
strictly positive, failing fast with the documented error kind otherwise. -/
noncomputable def pOChecked (o : ℝ) (mus sigmas : List ℝ) :
    Except KernelError (List ℝ) :=
  if ¬ mus.length = sigmas.length then .error .shapeMismatch
  else if ∃ s ∈ sigmas, s ≤ 0 then .error .invalidSigma
  else .ok (pO o mus sigmas)

open Classical in
/-- Modelled from the spec: the kernel boundary of `p_obs` applies the same
validation as `p_o`. -/
noncomputable def pObsChecked (obs : List ℝ) (mus sigmas : List ℝ) :
    Except KernelError (List (List ℝ)) :=
  if ¬ mus.length = sigmas.length then .error .shapeMismatch
  else if ∃ s ∈ sigmas, s ≤ 0 then .error .invalidSigma
  else .ok (pObs obs mus sigmas)

/-! ## Optional output-buffer contract -/

/-- A store of caller-visible buffers; a buffer handle is an index into the
store.  Used to model the `out` parameter's aliasing contract. -/
structure Store where
  bufs : List (List ℝ)

/-- Modelled from the spec: the `out` parameter of `p_o` (default
`py::none()` in the binding).  With `out = some i` the densities are
written into buffer `i` and the returned handle aliases it; with
`out = none` a fresh buffer is allocated and its handle returned. -/
noncomputable def pOCall (o : ℝ) (mus sigmas : List ℝ) (out : Option ℕ)
    (s : Store) : ℕ × Store :=
  match out with
  | some i => (i, ⟨s.bufs.set i (pO o mus sigmas)⟩)
  | none => (s.bufs.length, ⟨s.bufs ++ [pO o mus sigmas]⟩)

/-- A store of caller-visible `(T, K)` matrix buffers, for the `out`
parameter of `p_obs`. -/
structure MatStore where
  bufs : List (List (List ℝ))

/-- Modelled from the spec: the `out` parameter of `p_obs` (default
`py::none()` in the binding).  With `out = some i` the `(T, K)` density
matrix is written into matrix buffer `i` and the returned handle aliases
it; with `out = none` a fresh matrix buffer is allocated and its handle
returned. -/
noncomputable def pObsCall (obs mus sigmas : List ℝ) (out : Option ℕ)
    (ms : MatStore) : ℕ × MatStore :=
  match out with
  | some i => (i, ⟨ms.bufs.set i (pObs obs mus sigmas)⟩)
  | none => (ms.bufs.length, ⟨ms.bufs ++ [pObs obs mus sigmas]⟩)

/-! ## Binding surface of `hmm_module.cpp` -/

/-- One `def(...)` registration in the binding: exposed name, floating
precision in bits, and (for the discrete kernel) the integer index width in
bits. -/
structure BoundFunction where
  name : String
  floatBits : ℕ
  indexBits : Option ℕ
  deriving DecidableEq, Repr

/-- A submodule created by `def_submodule` together with the functions
registered on it. -/
structure PySubmodule where
  name : String
  funcs : List BoundFunction
  deriving DecidableEq, Repr

/-- The direct submodules of the top-level `_hmm_bindings` module, in
creation order, as registered in `hmm_module.cpp`: `output_models` is
created on `m` and left empty; `discrete` and `gaussian` are also created
on `m` (not on `output_models`) and receive all the kernels. -/
def hmmBindingsSubmodules : List PySubmodule :=
  [⟨"output_models", []⟩,
   ⟨"discrete",
     [⟨"update_p_out", 32, some 32⟩,
      ⟨"update_p_out", 32, some 64⟩,
      ⟨"update_p_out", 64, some 32⟩,
      ⟨"update_p_out", 64, some 64⟩]⟩,
   ⟨"gaussian",
     [⟨"p_o", 64, none⟩,
      ⟨"p_o", 32, none⟩,
      ⟨"p_obs", 64, none⟩,
      ⟨"p_obs", 32, none⟩]⟩]

/-! ## Lemmas about the discrete accumulator -/

/-- Entry read-out of one scatter step: `set` at an in-range index `o`
changes exactly the entry at `o`. -/
lemma getD_set_scatter (row : List ℚ) (o n : ℕ) (w : ℚ) (ho : o < row.length) :
    (row.set o (row.getD o 0 + w)).getD n 0 =
      row.getD n 0 + if o = n then w else 0 := by
  by_cases h : o = n
  · subst h
    simp [List.getD, List.getElem?_set_self (h := ho), List.getElem?_eq_getElem ho]
  · simp [List.getD, List.getElem?_set_ne h, h]

/-- `scatterStep` preserves the row count when the weight row covers all
states. -/
lemma scatterStep_length (o : ℕ) (wRow : List ℚ) (pout : List (List ℚ))
    (hw : pout.length ≤ wRow.length) :
    (scatterStep o wRow pout).length = pout.length := by
  simp [scatterStep, Nat.min_eq_left hw]

/-- Row read-out of one scatter step: row `k` of `scatterStep o wRow pout`
is row `k` of `pout` with entry `o` incremented by `wRow[k]`. -/
lemma scatterStep_getD (o : ℕ) (wRow : List ℚ) (pout : List (List ℚ))
    (k : ℕ) (hk : k < pout.length) (hkw : k < wRow.length) :
    (scatterStep o wRow pout).getD k [] =
      (pout.getD k []).set o ((pout.getD k []).getD o 0 + wRow.getD k 0) := by
  have hlen : (scatterStep o wRow pout).length = min pout.length wRow.length := by
    simp [scatterStep]
  have hk3 : k < (scatterStep o wRow pout).length := by omega
  rw [List.getD_eq_getElem _ _ hk3, List.getD_eq_getElem _ _ hk,
    List.getD_eq_getElem _ _ hkw]
  simp [scatterStep, List.getD_eq_getElem _ _ hk]

/-- A scatter step keeps the `(K, N)` shape of the table. -/
lemma scatterStep_shape (o : ℕ) (wRow : List ℚ) (pout : List (List ℚ))
    (K N : ℕ) (hP : pout.length = K) (hW : K ≤ wRow.length)
    (hPr : ∀ j, j < K → (pout.getD j []).length = N) :
    (scatterStep o wRow pout).length = K ∧
      ∀ j, j < K → ((scatterStep o wRow pout).getD j []).length = N := by
  constructor
  · rw [scatterStep_length _ _ _ (by omega)]; exact hP
  · intro j hj
    rw [scatterStep_getD _ _ _ j (by omega) (by omega), List.length_set]
    exact hPr j hj

/-- `updatePOut` on an empty observation sequence returns the table
unchanged. -/
lemma updatePOut_nil (weights : List (List ℚ)) (pout : List (List ℚ)) :
    updatePOut [] weights pout = pout := by
  cases weights <;> rfl

/-- `updatePOut` with exhausted weights returns the table unchanged. -/
lemma updatePOut_nilW (obs : List ℕ) (pout : List (List ℚ)) :
    updatePOut obs [] pout = pout := by
  cases obs <;> rfl

/-- One unfolding of `updatePOut`. -/
lemma updatePOut_cons (o : ℕ) (obs : List ℕ) (w : List ℚ)
    (weights : List (List ℚ)) (pout : List (List ℚ)) :
    updatePOut (o :: obs) (w :: weights) pout =
      updatePOut obs weights (scatterStep o w pout) := rfl

/-- `updatePOut` keeps the `(K, N)` shape of the table. -/
lemma updatePOut_shape (obs : List ℕ) (weights : List (List ℚ))
    (pout : List (List ℚ)) (K N : ℕ) (hP : pout.length = K)
    (hPr : ∀ j, j < K → (pout.getD j []).length = N)
    (hW : ∀ w ∈ weights, K ≤ w.length) :
    (updatePOut obs weights pout).length = K ∧
      ∀ j, j < K → ((updatePOut obs weights pout).getD j []).length = N := by
  induction obs generalizing weights pout with
  | nil => rw [updatePOut_nil]; exact ⟨hP, hPr⟩
  | cons o obs ih =>
    cases weights with
    | nil => rw [updatePOut_nilW]; exact ⟨hP, hPr⟩
    | cons w ws =>
      rw [updatePOut_cons]
      have hw : K ≤ w.length := hW w (List.mem_cons_self _ _)
      obtain ⟨h1, h2⟩ := scatterStep_shape o w pout K N hP hw hPr
      exact ih ws _ h1 h2 (fun v hv => hW v (List.mem_cons_of_mem _ hv))

/-- Main characterization of the scatter-add: after `updatePOut`, cell
`(k, n)` holds its old value plus the total weight scattered onto it. -/
lemma updatePOut_getD (obs : List ℕ) (weights : List (List ℚ))
    (pout : List (List ℚ)) (K N : ℕ) (hP : pout.length = K)
    (hPr : ∀ j, j < K → (pout.getD j []).length = N)
    (hW : ∀ w ∈ weights, K ≤ w.length) (hobs : ∀ o ∈ obs, o < N)
    (k n : ℕ) (hk : k < K) (hn : n < N) :
    ((updatePOut obs weights pout).getD k []).getD n 0 =
      (pout.getD k []).getD n 0 + scatterSum k n obs weights := by
  induction obs generalizing weights pout with
  | nil => rw [updatePOut_nil]; simp [scatterSum]
  | cons o obs ih =>
    cases weights with
    | nil => rw [updatePOut_nilW]; simp [scatterSum]
    | cons w ws =>
      rw [updatePOut_cons]
      have hw : K ≤ w.length := hW w (List.mem_cons_self _ _)
      obtain ⟨h1, h2⟩ := scatterStep_shape o w pout K N hP hw hPr
      have ho : o < N := hobs o (List.mem_cons_self _ _)
      rw [ih ws _ h1 h2 (fun v hv => hW v (List.mem_cons_of_mem _ hv))
        (fun v hv => hobs v (List.mem_cons_of_mem _ hv))]
      rw [scatterStep_getD o w pout k (by omega) (by omega)]
      rw [getD_set_scatter _ _ _ _ (by rw [hPr k hk]; exact ho)]
      show _ + _ + _ = _ + scatterSum k n (o :: obs) (w :: ws)
      simp only [scatterSum]
      ring

/-- If symbol `n` never occurs in the observations, nothing is scattered
onto column `n`. -/
lemma scatterSum_eq_zero (k n : ℕ) (obs : List ℕ) (weights : List (List ℚ))
    (hn : n ∉ obs) : scatterSum k n obs weights = 0 := by
  induction obs generalizing weights with
  | nil => cases weights <;> rfl
  | cons o obs ih =>
    cases weights with
    | nil => rfl
    | cons w ws =>
      have ho : ¬ o = n := fun h => hn (h ▸ List.mem_cons_self _ _)
      simp only [scatterSum, ho, if_false, zero_add]
      exact ih ws (fun h => hn (List.mem_cons_of_mem _ h))

/-! ## Lemmas about the Gaussian evaluator -/

/-- `pO` produces one density per (mean, sigma) pair. -/
lemma pO_length (o : ℝ) (mus sigmas : List ℝ) :
    (pO o mus sigmas).length = min mus.length sigmas.length := by
  induction mus generalizing sigmas with
  | nil => cases sigmas <;> simp [pO]
  | cons mu mus ih =>
    cases sigmas with
    | nil => simp [pO]
    | cons s ss => simp [pO, ih ss]; omega

/-- Entry read-out of `pO`: the `k`-th density is the Gaussian density
under the `k`-th state's parameters. -/
lemma pO_getD (o : ℝ) (mus sigmas : List ℝ) (k : ℕ)
    (hm : k < mus.length) (hs : k < sigmas.length) :
    (pO o mus sigmas).getD k 0 =
      gaussianDensity o (mus.getD k 0) (sigmas.getD k 0) := by
  induction mus generalizing sigmas k with
  | nil => simp at hm
  | cons mu mus ih =>
    cases sigmas with
    | nil => simp at hs
    | cons s ss =>
      cases k with
      | zero => simp [pO]
      | succ k =>
        simp only [pO, List.getD_cons_succ]
        exact ih ss k (by simpa using hm) (by simpa using hs)

/-- Positivity of the Gaussian density for a strictly positive standard
deviation. -/
lemma gaussianDensity_pos (o mu sigma : ℝ) (hs : 0 < sigma) :
    0 < gaussianDensity o mu sigma := by
  apply div_pos (Real.exp_pos _)
  apply mul_pos hs
  apply Real.sqrt_pos.mpr
  positivity

/-- Row read-out of `pObs`: row `t` is `pO` at observation `t`. -/
lemma pObs_getD (obs mus sigmas : List ℝ) (t : ℕ) (ht : t < obs.length) :
    (pObs obs mus sigmas).getD t [] = pO (obs.getD t 0) mus sigmas := by
  have h1 : t < (pObs obs mus sigmas).length := by simp [pObs, ht]
  rw [List.getD_eq_getElem _ _ h1, List.getD_eq_getElem _ _ ht]
  simp [pObs]

/-! ## Lemmas about the buffer store -/

/-- Writing into an existing buffer: reading the written slot back gives
the written value. -/
lemma getD_set_write {α : Type} (l : List α) (i : ℕ) (v d : α)
    (hi : i < l.length) : (l.set i v).getD i d = v := by
  have hi2 : i < (l.set i v).length := by simpa using hi
  rw [List.getD_eq_getElem _ _ hi2]
  exact List.getElem_set_self hi2

/-- Allocating a fresh buffer at the end of the store: reading the fresh
slot gives the allocated value. -/
lemma getD_append_fresh {α : Type} (l : List α) (v d : α) :
    (l ++ [v]).getD l.length d = v := by
  have hl : l.length < (l ++ [v]).length := by simp
  rw [List.getD_eq_getElem _ _ hl]
  exact List.getElem_concat_length _ _ _ rfl hl

/-! ## Claims -/

/-- C1: for every observation sequence with symbols below `N`, every
`(T, K)` weight matrix and `(K, N)` table, `update_p_out` adds
`weights[t][k]` onto `pout[k][obs[t]]` for every `t, k` and changes nothing
else (each cell gains exactly the scatter total for its column); in
particular the spec's concrete example evaluates to
`[[1.5, 0], [0.5, 1]]`. -/
theorem updatePOut_scatter_add (obs : List ℕ) (weights : List (List ℚ))
    (pout : List (List ℚ)) (K N : ℕ) (hP : pout.length = K)
    (hPr : ∀ j, j < K → (pout.getD j []).length = N)
    (hW : ∀ w ∈ weights, K ≤ w.length) (hobs : ∀ o ∈ obs, o < N)
    (k n : ℕ) (hk : k < K) (hn : n < N) :
    ((updatePOut obs weights pout).getD k []).getD n 0 =
      (pout.getD k []).getD n 0 + scatterSum k n obs weights ∧
    updatePOut [0, 1, 0] [[1, 0], [0, 1], [1/2, 1/2]] [[0, 0], [0, 0]] =
      [[3/2, 0], [1/2, 1]] :=
  ⟨updatePOut_getD obs weights pout K N hP hPr hW hobs k n hk hn,
   by norm_num [updatePOut, scatterStep, List.getD]⟩

/-- Witness for C1 at the spec's concrete example, cell `(0, 0)`. -/
theorem updatePOut_scatter_add_witness :
    ((updatePOut [0, 1, 0] [[1, 0], [0, 1], [1/2, 1/2]]
        [[0, 0], [0, 0]]).getD 0 []).getD 0 0 =
      (([[(0 : ℚ), 0], [0, 0]].getD 0 []).getD 0 0) +
        scatterSum 0 0 [0, 1, 0] [[1, 0], [0, 1], [1/2, 1/2]] ∧
    updatePOut [0, 1, 0] [[1, 0], [0, 1], [1/2, 1/2]] [[0, 0], [0, 0]] =
      [[3/2, 0], [1/2, 1]] :=
  updatePOut_scatter_add [0, 1, 0] [[1, 0], [0, 1], [1/2, 1/2]]
    [[0, 0], [0, 0]] 2 2 (by decide) (by decide) (by decide) (by decide)
    0 0 (by decide) (by decide)

/-- C2: for a single observation and `(K,)` means/sigmas with all sigmas
strictly positive, `p_o` returns the vector whose `k`-th entry is the
Gaussian density `N(o; mus[k], sigmas[k])`. -/
theorem pO_gaussian_density (o : ℝ) (mus sigmas : List ℝ)
    (hlen : mus.length = sigmas.length) (_hpos : ∀ s ∈ sigmas, 0 < s)
    (k : ℕ) (hk : k < mus.length) :
    (pO o mus sigmas).getD k 0 =
      gaussianDensity o (mus.getD k 0) (sigmas.getD k 0) :=
  pO_getD o mus sigmas k hk (hlen ▸ hk)

/-- Witness for C2 at `o = 0`, `mus = [0]`, `sigmas = [1]`, `k = 0`. -/
theorem pO_gaussian_density_witness :
    (pO 0 [0] [1]).getD 0 0 =
      gaussianDensity 0 (([(0 : ℝ)]).getD 0 0) (([(1 : ℝ)]).getD 0 0) :=
  pO_gaussian_density 0 [0] [1] rfl (by norm_num) 0 (by norm_num)

/-- C3: `p_obs` is `p_o` applied independently per time step: row `t` of
the `(T, K)` result equals `p_o(obs[t], mus, sigmas)`, with one row per
observation. -/
theorem pObs_rows_eq_pO (obs mus sigmas : List ℝ) (t : ℕ)
    (ht : t < obs.length) :
    (pObs obs mus sigmas).getD t [] = pO (obs.getD t 0) mus sigmas ∧
    (pObs obs mus sigmas).length = obs.length :=
  ⟨pObs_getD obs mus sigmas t ht, by simp [pObs]⟩

/-- Witness for C3 at a one-observation batch. -/
theorem pObs_rows_eq_pO_witness :
    (pObs [2] [0] [1]).getD 0 [] = pO (([(2 : ℝ)]).getD 0 0) [0] [1] ∧
    (pObs [2] [0] [1]).length = ([(2 : ℝ)]).length :=
  pObs_rows_eq_pO [2] [0] [1] 0 (by norm_num)

/-- C5: for strictly positive sigmas, every entry of the `p_o` density
vector is strictly positive (hence nonzero and, being a real number,
finite). -/
theorem pO_entries_pos (o : ℝ) (mus sigmas : List ℝ)
    (hlen : mus.length = sigmas.length) (hpos : ∀ s ∈ sigmas, 0 < s)
    (k : ℕ) (hk : k < mus.length) :
    0 < (pO o mus sigmas).getD k 0 := by
  rw [pO_getD o mus sigmas k hk (hlen ▸ hk)]
  apply gaussianDensity_pos
  apply hpos
  have hks : k < sigmas.length := hlen ▸ hk
  rw [List.getD_eq_getElem _ _ hks]
  exact List.getElem_mem _

/-- Witness for C5 at `o = 100`, `mus = [0]`, `sigmas = [1]`, `k = 0`. -/
theorem pO_entries_pos_witness : 0 < (pO 100 [0] [1]).getD 0 0 :=
  pO_entries_pos 100 [0] [1] rfl (by norm_num) 0 (by norm_num)

/-- C4: precondition violations fail fast with the documented error kind:
`p_o` / `p_obs` report `invalidSigma` when some sigma is `≤ 0`, and
`update_p_out` reports `indexOutOfRange` for a negative or too-large
symbol (given agreeing shapes) and `shapeMismatch` when the `T`/`K`
shapes of its arguments disagree; no value is returned in any of these
cases. -/
theorem kernels_fail_fast (o : ℝ) (obsR mus sigmas : List ℝ)
    (obs1 : List ℤ) (w1 p1 : List (List ℚ)) (obs2 : List ℤ)
    (w2 p2 : List (List ℚ)) (hlen : mus.length = sigmas.length)
    (hsig : ∃ s ∈ sigmas, s ≤ 0) (hok1 : okShape obs1 w1 p1)
    (hidx : ¬ okSymbols obs1 p1) (hbad2 : ¬ okShape obs2 w2 p2) :
    pOChecked o mus sigmas = .error .invalidSigma ∧
    pObsChecked obsR mus sigmas = .error .invalidSigma ∧
    updatePOutChecked obs1 w1 p1 = .error .indexOutOfRange ∧
    updatePOutChecked obs2 w2 p2 = .error .shapeMismatch := by
  refine ⟨?_, ?_, ?_, ?_⟩
  · rw [pOChecked, if_neg (not_not_intro hlen), if_pos hsig]
  · rw [pObsChecked, if_neg (not_not_intro hlen), if_pos hsig]
  · rw [updatePOutChecked, if_neg (not_not_intro hok1), if_pos hidx]
  · rw [updatePOutChecked, if_pos hbad2]

/-- Witness for C4: sigma `0`, an out-of-range symbol `2` against a
`(1, 2)` table, and a weight matrix whose `T` disagrees with the
observations. -/
theorem kernels_fail_fast_witness :
    pOChecked 0 [1] [0] = .error .invalidSigma ∧
    pObsChecked [5] [1] [0] = .error .invalidSigma ∧
    updatePOutChecked [2] [[1]] [[1, 1]] = .error .indexOutOfRange ∧
    updatePOutChecked [0] [] [[1]] = .error .shapeMismatch :=
  kernels_fail_fast 0 [5] [1] [0] [2] [[1]] [[1, 1]] [0] [] [[1]] rfl
    ⟨0, by norm_num⟩ (by decide) (by decide) (by decide)

/-- C6 counterexample: starting from the non-reset table `[[1]]` with
`obs = [0]`, `weights = [[1]]`, two successive calls leave the cell at `3`,
not double the single-call value `2`. -/
theorem updatePOut_double_call_cex :
    ¬ (((updatePOut [0] [[(1 : ℚ)]]
          (updatePOut [0] [[1]] [[1]])).getD 0 []).getD 0 0 =
        2 * ((updatePOut [0] [[(1 : ℚ)]] [[1]]).getD 0 []).getD 0 0) := by
  norm_num [updatePOut, scatterStep, List.getD]

/-- C6 (amended): calling `update_p_out` twice with the same observations
and weights leaves each cell at its original value plus twice the
single-call increment; when the table starts at zero in that cell, this is
exactly double the single-call result. -/
theorem updatePOut_double_call (obs : List ℕ) (weights : List (List ℚ))
    (pout : List (List ℚ)) (K N : ℕ) (hP : pout.length = K)
    (hPr : ∀ j, j < K → (pout.getD j []).length = N)
    (hW : ∀ w ∈ weights, K ≤ w.length) (hobs : ∀ o ∈ obs, o < N)
    (k n : ℕ) (hk : k < K) (hn : n < N) :
    ((updatePOut obs weights (updatePOut obs weights pout)).getD k
        []).getD n 0 =
      (pout.getD k []).getD n 0 + 2 * scatterSum k n obs weights ∧
    ((pout.getD k []).getD n 0 = 0 →
      ((updatePOut obs weights (updatePOut obs weights pout)).getD k
          []).getD n 0 =
        2 * ((updatePOut obs weights pout).getD k []).getD n 0) := by
  obtain ⟨h1, h2⟩ := updatePOut_shape obs weights pout K N hP hPr hW
  have e1 := updatePOut_getD obs weights pout K N hP hPr hW hobs k n hk hn
  have e2 := updatePOut_getD obs weights (updatePOut obs weights pout) K N
    h1 h2 hW hobs k n hk hn
  constructor
  · rw [e2, e1]; ring
  · intro hz; rw [e2, e1, hz]; ring

/-- Witness for C6 at `obs = [0]`, `weights = [[1]]`, zero table. -/
theorem updatePOut_double_call_witness :
    ((updatePOut [0] [[(1 : ℚ)]]
        (updatePOut [0] [[1]] [[0]])).getD 0 []).getD 0 0 =
      (([[(0 : ℚ)]].getD 0 []).getD 0 0) + 2 * scatterSum 0 0 [0] [[1]] ∧
    ((([[(0 : ℚ)]].getD 0 []).getD 0 0) = 0 →
      ((updatePOut [0] [[(1 : ℚ)]]
          (updatePOut [0] [[1]] [[0]])).getD 0 []).getD 0 0 =
        2 * ((updatePOut [0] [[(1 : ℚ)]] [[0]]).getD 0 []).getD 0 0) :=
  updatePOut_double_call [0] [[1]] [[0]] 1 1 (by decide) (by decide)
    (by decide) (by decide) 0 0 (by decide) (by decide)

/-- C7: for `p_o` and, per row, for `p_obs`: with a supplied output buffer
the densities are written into that buffer and the returned handle aliases
it; with none supplied (the default), a fresh buffer at an unused handle
is allocated; in both modes the stored density values are the same —
`pO o mus sigmas` for `p_o`, and for `p_obs` a matrix whose row `t` is
`pO` at observation `t` in either mode. -/
theorem pOCall_out_modes (o : ℝ) (obs mus sigmas : List ℝ) (s : Store)
    (ms : MatStore) (i j : ℕ) (hi : i < s.bufs.length)
    (hj : j < ms.bufs.length) :
    (pOCall o mus sigmas (some i) s).1 = i ∧
    (pOCall o mus sigmas (some i) s).2.bufs.getD i [] = pO o mus sigmas ∧
    (pOCall o mus sigmas none s).1 = s.bufs.length ∧
    (pOCall o mus sigmas none s).2.bufs.getD s.bufs.length [] =
      pO o mus sigmas ∧
    (pObsCall obs mus sigmas (some j) ms).1 = j ∧
    (pObsCall obs mus sigmas (some j) ms).2.bufs.getD j [] =
      pObs obs mus sigmas ∧
    (pObsCall obs mus sigmas none ms).1 = ms.bufs.length ∧
    (pObsCall obs mus sigmas none ms).2.bufs.getD ms.bufs.length [] =
      pObs obs mus sigmas ∧
    ∀ t, t < obs.length →
      ((pObsCall obs mus sigmas (some j) ms).2.bufs.getD j []).getD t [] =
        pO (obs.getD t 0) mus sigmas ∧
      ((pObsCall obs mus sigmas none ms).2.bufs.getD ms.bufs.length
          []).getD t [] = pO (obs.getD t 0) mus sigmas := by
  have hset : (pObsCall obs mus sigmas (some j) ms).2.bufs.getD j [] =
      pObs obs mus sigmas := getD_set_write ms.bufs j _ [] hj
  have hfresh : (pObsCall obs mus sigmas none ms).2.bufs.getD
      ms.bufs.length [] = pObs obs mus sigmas :=
    getD_append_fresh ms.bufs _ []
  refine ⟨rfl, getD_set_write s.bufs i _ [] hi, rfl,
    getD_append_fresh s.bufs _ [], rfl, hset, rfl, hfresh, ?_⟩
  intro t ht
  rw [hset, hfresh]
  exact ⟨pObs_getD obs mus sigmas t ht, pObs_getD obs mus sigmas t ht⟩

/-- Witness for C7 on one-buffer stores with a one-observation batch. -/
theorem pOCall_out_modes_witness :
    (pOCall 0 [] [] (some 0) ⟨[[]]⟩).1 = 0 ∧
    (pOCall 0 [] [] (some 0) ⟨[[]]⟩).2.bufs.getD 0 [] = pO 0 [] [] ∧
    (pOCall 0 [] [] none ⟨[[]]⟩).1 = (Store.mk [[]]).bufs.length ∧
    (pOCall 0 [] [] none ⟨[[]]⟩).2.bufs.getD
        (Store.mk [[]]).bufs.length [] = pO 0 [] [] ∧
    (pObsCall [2] [] [] (some 0) ⟨[[]]⟩).1 = 0 ∧
    (pObsCall [2] [] [] (some 0) ⟨[[]]⟩).2.bufs.getD 0 [] =
      pObs [2] [] [] ∧
    (pObsCall [2] [] [] none ⟨[[]]⟩).1 = (MatStore.mk [[]]).bufs.length ∧
    (pObsCall [2] [] [] none ⟨[[]]⟩).2.bufs.getD
        (MatStore.mk [[]]).bufs.length [] = pObs [2] [] [] ∧
    (∀ t, t < ([(2 : ℝ)]).length →
      ((pObsCall [2] [] [] (some 0) ⟨[[]]⟩).2.bufs.getD 0 []).getD t [] =
        pO (([(2 : ℝ)]).getD t 0) [] [] ∧
      ((pObsCall [2] [] [] none ⟨[[]]⟩).2.bufs.getD
          (MatStore.mk [[]]).bufs.length []).getD t [] =
        pO (([(2 : ℝ)]).getD t 0) [] []) :=
  pOCall_out_modes 0 [2] [] [] ⟨[[]]⟩ ⟨[[]]⟩ 0 0 (by norm_num) (by norm_num)



/-- C9: `update_p_out` is pure accumulation with no side effects beyond the
scattered cells: the table keeps its `(K, N)` shape, a cell whose symbol
column never occurs in the observations is left exactly unchanged (no
normalization or rescaling of rows), and every cell ends at its old value
plus the sum of the weights scattered onto it. -/
theorem updatePOut_pure_accumulation (obs : List ℕ)
    (weights : List (List ℚ)) (pout : List (List ℚ)) (K N : ℕ)
    (hP : pout.length = K) (hPr : ∀ j, j < K → (pout.getD j []).length = N)
    (hW : ∀ w ∈ weights, K ≤ w.length) (hobs : ∀ o ∈ obs, o < N) :
    (updatePOut obs weights pout).length = K ∧
    (∀ j, j < K → ((updatePOut obs weights pout).getD j []).length = N) ∧
    (∀ k n, k < K → n < N → n ∉ obs →
      ((updatePOut obs weights pout).getD k []).getD n 0 =
        (pout.getD k []).getD n 0) ∧
    (∀ k n, k < K → n < N →
      ((updatePOut obs weights pout).getD k []).getD n 0 =
        (pout.getD k []).getD n 0 + scatterSum k n obs weights) := by
  obtain ⟨h1, h2⟩ := updatePOut_shape obs weights pout K N hP hPr hW
  refine ⟨h1, h2, ?_, ?_⟩
  · intro k n hk hn hnot
    rw [updatePOut_getD obs weights pout K N hP hPr hW hobs k n hk hn,
      scatterSum_eq_zero k n obs weights hnot, add_zero]
  · intro k n hk hn
    exact updatePOut_getD obs weights pout K N hP hPr hW hobs k n hk hn

/-- Witness for C9: scattering onto column `0` of a `(1, 2)` table leaves
column `1` untouched. -/
theorem updatePOut_pure_accumulation_witness :
    (updatePOut [0] [[1]] [[5, 7]]).length = 1 ∧
    (∀ j, j < 1 → ((updatePOut [0] [[(1 : ℚ)]] [[5, 7]]).getD j
        []).length = 2) ∧
    (∀ k n, k < 1 → n < 2 → n ∉ [0] →
      ((updatePOut [0] [[(1 : ℚ)]] [[5, 7]]).getD k []).getD n 0 =
        (([[(5 : ℚ), 7]].getD k []).getD n 0)) ∧
    (∀ k n, k < 1 → n < 2 →
      ((updatePOut [0] [[(1 : ℚ)]] [[5, 7]]).getD k []).getD n 0 =
        (([[(5 : ℚ), 7]].getD k []).getD n 0) + scatterSum k n [0] [[1]]) :=
  updatePOut_pure_accumulation [0] [[1]] [[5, 7]] 1 2 (by decide)
    (by decide) (by decide) (by decide)

/-- C8: the binding exposes `update_p_out` for all four combinations of
floating precision {32, 64} × index width {32, 64}, and `p_o` / `p_obs`
for both floating precisions only, with no index-width variants on the
Gaussian entry points. -/
theorem binding_overload_surface :
    (((hmmBindingsSubmodules.map (fun m => m.funcs)).flatten.filter
        (fun f => f.name = "update_p_out")).map
      (fun f => (f.floatBits, f.indexBits))) =
      [(32, some 32), (32, some 64), (64, some 32), (64, some 64)] ∧
    (((hmmBindingsSubmodules.map (fun m => m.funcs)).flatten.filter
        (fun f => f.name = "p_o")).map
      (fun f => (f.floatBits, f.indexBits))) =
      [(64, none), (32, none)] ∧
    (((hmmBindingsSubmodules.map (fun m => m.funcs)).flatten.filter
        (fun f => f.name = "p_obs")).map
      (fun f => (f.floatBits, f.indexBits))) =
      [(64, none), (32, none)] ∧
    ((hmmBindingsSubmodules.map (fun m => m.funcs)).flatten.all
      (fun f => f.name = "update_p_out" ∨ f.name = "p_o" ∨
        f.name = "p_obs")) = true := by
  decide

/-- C10: the compiled module creates an `output_models` submodule that
stays empty, while the `discrete` and `gaussian` submodules carrying all
six entry points are attached directly to the top level. -/
theorem binding_module_layout :
    hmmBindingsSubmodules.map (fun m => m.name) =
      ["output_models", "discrete", "gaussian"] ∧
    (∀ m ∈ hmmBindingsSubmodules, m.name = "output_models" →
      m.funcs = []) ∧
    (∃ m ∈ hmmBindingsSubmodules, m.name = "discrete" ∧
      m.funcs.map (fun f => f.name) =
        ["update_p_out", "update_p_out", "update_p_out",
         "update_p_out"]) ∧
    (∃ m ∈ hmmBindingsSubmodules, m.name = "gaussian" ∧
      m.funcs.map (fun f => f.name) = ["p_o", "p_o", "p_obs", "p_obs"]) := by
  decide

end HmmBindings
